import Mathlib

/-!
Verification development for the finding deduplication and consolidation
engine of the autoengineer repository.

The definitions below are a shallow embedding of the Go sources:

* `CodeSnippet`, `Finding`, severity and category constants, and the
  `BySeverity` sort order come from the findings package type file
  (src/unnamed/part_004).
* `Merge`, `deduplicate`, `shouldMerge`, `calculateSimilarity`,
  `tokenSimilarity`, `normalizeTokens`, `normalizeToken`, `tokenize`,
  `calculateFileOverlap`, `mergeFindings` and `severityValue` come from
  src/go/internal/findings/merge.go.

Modelling conventions:

* Go `float64` arithmetic is modelled with `ℚ`; every threshold comparison
  settled below has a margin that is many orders of magnitude larger than
  double rounding error.
* Go strings are manipulated through their character lists.  Go indexes
  bytes and Lean chars; the two agree on the ASCII data handled here.
  `strings.ToLower` is modelled by `Char.toLower`, which agrees with it on
  ASCII input.
* Go maps used as sets (`map[string]bool`, `map[int]bool`) are modelled by
  list membership; a map's key set iterated and then sorted is modelled by
  sorting the deduplicated list, which is the same list for every iteration
  order (proved as the C10 theorem).
* `sort.Sort(BySeverity(...))` is modelled by a stable insertion sort with
  the exact `BySeverity.Less` comparison.  Go's `sort.Sort` runs its
  insertion-sort path (identical behaviour) on every slice shorter than 12
  elements; all sort-order-sensitive concrete inputs in this file are far
  below that bound.
-/

unseal Rat.mul Rat.add Rat.inv

/-- CodeSnippet record: file, start line, end line and captured code
(findings package type file). -/
structure CodeSnippet where
  File : String
  StartLine : Int
  EndLine : Int
  Code : String
deriving DecidableEq, Repr

/-- Finding record as used by merge.go: the type file declares Category,
Title, Severity, Description, Recommendation, Files and CodeSnippets;
merge.go and filter.go additionally reference an ID field. -/
structure Finding where
  ID : String
  Category : String
  Title : String
  Severity : String
  Description : String
  Recommendation : String
  Files : List String
  CodeSnippets : List CodeSnippet
deriving DecidableEq, Repr

/-- Severity constant "high". -/
def SeverityHigh : String := "high"

/-- Severity constant "medium". -/
def SeverityMedium : String := "medium"

/-- Severity constant "low". -/
def SeverityLow : String := "low"

/-- Category constant "security". -/
def CategorySecurity : String := "security"

/-- Category constant "pipeline". -/
def CategoryPipeline : String := "pipeline"

/-- Category constant "infra". -/
def CategoryInfra : String := "infra"

/-- Punctuation characters replaced by spaces in tokenize (merge.go lines
188-201). -/
def punctuationChars : List Char :=
  [',', '.', ':', ';', '(', ')', '[', ']', '{', '}', '/', '-']

/-- One character of the tokenize replacer: punctuation becomes a space. -/
def replacePunct (c : Char) : Char :=
  if punctuationChars.contains c then ' ' else c

/-- strings.Fields: split a character list on whitespace runs, dropping
empty fields.  The first argument accumulates the current field in
reverse. -/
def fieldsAux : List Char → List Char → List (List Char)
  | cur, [] => if cur = [] then [] else [cur.reverse]
  | cur, c :: rest =>
    if c.isWhitespace then
      if cur = [] then fieldsAux [] rest
      else cur.reverse :: fieldsAux [] rest
    else fieldsAux (c :: cur) rest

/-- tokenize (merge.go lines 186-213): replace punctuation with spaces,
split on whitespace, keep only tokens longer than one character. -/
def tokenize (s : List Char) : List (List Char) :=
  (fieldsAux [] (s.map replacePunct)).filter (fun t => 1 < t.length)

/-- Check that `suf` is a suffix of `t` (strings.HasSuffix). -/
def endsWith (t suf : List Char) : Bool :=
  t.reverse.take suf.length = suf.reverse

/-- normalizeToken (merge.go lines 172-183): strip the first suffix from
"ing", "ed", "s", "es" whose removal is allowed by the length guard
len(token) > len(suffix)+2. -/
def stripFirstSuffix : List (List Char) → List Char → List Char
  | [], t => t
  | suf :: rest, t =>
    if suf.length + 2 < t.length ∧ endsWith t suf then
      t.take (t.length - suf.length)
    else stripFirstSuffix rest t

/-- The suffix list of normalizeToken, in source order. -/
def stemSuffixes : List (List Char) :=
  [['i', 'n', 'g'], ['e', 'd'], ['s'], ['e', 's']]

/-- normalizeToken applied to one token. -/
def normalizeToken (t : List Char) : List Char :=
  stripFirstSuffix stemSuffixes t

/-- normalizeTokens (merge.go lines 163-169). -/
def normalizeTokens (ts : List (List Char)) : List (List Char) :=
  ts.map normalizeToken

/-- Lowercase a Go string as a character list (strings.ToLower; ASCII
agrees with Char.toLower). -/
def lowerChars (s : String) : List Char :=
  s.toList.map Char.toLower

/-- tokenSimilarity (merge.go lines 118-160): Jaccard-style similarity of
the normalized token lists of two strings.  The intersection counts, as in
the source, the tokens of the second list that occur in the first, and the
union is len1 + len2 - intersection. -/
def tokenSimilarity (s1 s2 : String) : ℚ :=
  if s1 = "" ∧ s2 = "" then 1
  else if s1 = "" ∨ s2 = "" then 0
  else
    let tokens1 := tokenize (lowerChars s1)
    let tokens2 := tokenize (lowerChars s2)
    if tokens1 = [] ∧ tokens2 = [] then 1
    else if tokens1 = [] ∨ tokens2 = [] then 0
    else
      let n1 := normalizeTokens tokens1
      let n2 := normalizeTokens tokens2
      let intersection := n2.countP (fun t => n1.contains t)
      let union := n1.length + n2.length - intersection
      if union = 0 then 0
      else (intersection : ℚ) / (union : ℚ)

/-- calculateFileOverlap (merge.go lines 216-245): overlap count of the
second list against the set of the first, divided by the larger length. -/
def calculateFileOverlap (files1 files2 : List String) : ℚ :=
  if files1 = [] ∧ files2 = [] then 1
  else if files1 = [] ∨ files2 = [] then 0
  else
    let overlap := files2.countP (fun f => files1.contains f)
    let maxLen := max files1.length files2.length
    (overlap : ℚ) / (maxLen : ℚ)

/-- calculateSimilarity (merge.go lines 80-115): weighted sum of the
included signals divided by the sum of the included weights.  Title is
always included (0.35); description (0.25) and recommendation (0.15) only
when both sides are non-empty; file overlap (0.25) only when both file
lists are non-empty. -/
def calculateSimilarity (a b : Finding) : ℚ :=
  let titleScore := tokenSimilarity a.Title b.Title * (35 / 100)
  let titleWeight : ℚ := 35 / 100
  let descIncluded := a.Description ≠ "" ∧ b.Description ≠ ""
  let descScore := if descIncluded then
      titleScore + tokenSimilarity a.Description b.Description * (25 / 100)
    else titleScore
  let descWeight := if descIncluded then titleWeight + 25 / 100 else titleWeight
  let recIncluded := a.Recommendation ≠ "" ∧ b.Recommendation ≠ ""
  let recScore := if recIncluded then
      descScore + tokenSimilarity a.Recommendation b.Recommendation * (15 / 100)
    else descScore
  let recWeight := if recIncluded then descWeight + 15 / 100 else descWeight
  let filesIncluded := a.Files ≠ [] ∧ b.Files ≠ []
  let score := if filesIncluded then
      recScore + calculateFileOverlap a.Files b.Files * (25 / 100)
    else recScore
  let weights := if filesIncluded then recWeight + 25 / 100 else recWeight
  if weights = 0 then 0 else score / weights

/-- shouldMerge (merge.go lines 64-77): same category required, then the
similarity score must reach the 0.38 threshold. -/
def shouldMerge (a b : Finding) : Bool :=
  if a.Category ≠ b.Category then false
  else decide ((38 : ℚ) / 100 ≤ calculateSimilarity a b)

/-- severityValue (merge.go lines 303-314): high 0, medium 1, low 2, any
other value 3 (lower is more severe). -/
def severityValue (severity : String) : Nat :=
  if severity = SeverityHigh then 0
  else if severity = SeverityMedium then 1
  else if severity = SeverityLow then 2
  else 3

/-- strings.Contains on character lists: `startsWithChars needle hay`
checks that needle is a prefix of hay. -/
def startsWithChars : List Char → List Char → Bool
  | [], _ => true
  | _ :: _, [] => false
  | a :: as, b :: bs => a = b && startsWithChars as bs

/-- strings.Contains: needle occurs somewhere in hay. -/
def containsAux (needle : List Char) : List Char → Bool
  | [] => startsWithChars needle []
  | c :: rest => startsWithChars needle (c :: rest) || containsAux needle rest

/-- strings.Contains(hay, needle) on Go strings (bytes and ASCII chars
agree on the data at issue). -/
def strContains (hay needle : String) : Bool :=
  containsAux needle.toList hay.toList

/-- Lexicographic comparison of character lists: Go compares strings byte
by byte, which on ASCII data is character by character. -/
def charListLe : List Char → List Char → Bool
  | [], _ => true
  | _ :: _, [] => false
  | a :: as, b :: bs => if a = b then charListLe as bs else decide (a < b)

/-- Go string comparison s1 <= s2. -/
def strLeRel (a b : String) : Prop :=
  charListLe a.toList b.toList = true

instance : DecidableRel strLeRel := fun a b =>
  inferInstanceAs (Decidable (charListLe a.toList b.toList = true))

/-- charListLe is total. -/
theorem charListLe_total :
    ∀ x y : List Char, charListLe x y = true ∨ charListLe y x = true := by
  intro x
  induction x with
  | nil => intro y; left; rfl
  | cons a as ih =>
    intro y
    cases y with
    | nil => right; rfl
    | cons b bs =>
      by_cases hab : a = b
      · subst hab
        rcases ih bs with h | h
        · left; simpa [charListLe] using h
        · right; simpa [charListLe] using h
      · rcases lt_or_gt_of_ne hab with h | h
        · left; simp [charListLe, hab, h]
        · right; simp [charListLe, Ne.symm hab, h]

/-- charListLe is transitive. -/
theorem charListLe_trans :
    ∀ x y z : List Char, charListLe x y = true → charListLe y z = true →
      charListLe x z = true := by
  intro x
  induction x with
  | nil => intro y z _ _; rfl
  | cons a as ih =>
    intro y z hxy hyz
    cases y with
    | nil => simp [charListLe] at hxy
    | cons b bs =>
      cases z with
      | nil => simp [charListLe] at hyz
      | cons c cs =>
        by_cases hab : a = b
        · subst hab
          by_cases hbc : a = c
          · subst hbc
            simp only [charListLe, if_pos rfl] at hxy hyz ⊢
            exact ih bs cs hxy hyz
          · simpa [charListLe, hbc] using (by simpa [charListLe, hbc] using hyz)
        · have hlt : a < b := by simpa [charListLe, hab] using hxy
          by_cases hbc : b = c
          · subst hbc
            simp [charListLe, hab, hlt]
          · have hlt2 : b < c := by simpa [charListLe, hbc] using hyz
            have hac : a < c := lt_trans hlt hlt2
            simp [charListLe, ne_of_lt hac, hac]

/-- charListLe is antisymmetric. -/
theorem charListLe_antisymm :
    ∀ x y : List Char, charListLe x y = true → charListLe y x = true → x = y := by
  intro x
  induction x with
  | nil =>
    intro y _ hyx
    cases y with
    | nil => rfl
    | cons b bs => simp [charListLe] at hyx
  | cons a as ih =>
    intro y hxy hyx
    cases y with
    | nil => simp [charListLe] at hxy
    | cons b bs =>
      by_cases hab : a = b
      · subst hab
        simp only [charListLe, if_pos rfl] at hxy hyx
        exact congrArg _ (ih bs hxy hyx)
      · have h1 : a < b := by simpa [charListLe, hab] using hxy
        have h2 : b < a := by simpa [charListLe, Ne.symm hab] using hyx
        exact absurd h1 (lt_asymm h2)

instance : IsTotal String strLeRel :=
  ⟨fun a b => charListLe_total a.toList b.toList⟩

instance : IsTrans String strLeRel :=
  ⟨fun a b c => charListLe_trans a.toList b.toList c.toList⟩

instance : IsAntisymm String strLeRel :=
  ⟨fun a b h1 h2 => by
    cases a with
    | mk da =>
      cases b with
      | mk db =>
        exact congrArg String.mk (charListLe_antisymm da db h1 h2)⟩

/-- Sort a string list ascending (sort.Strings).  The inputs sorted here
are deduplicated map key sets, on which every correct sort returns the
same list. -/
def sortStrings (l : List String) : List String :=
  List.insertionSort strLeRel l

/-- mergeFindings (merge.go lines 248-300): the finding with the smaller
severityValue becomes the base (ties keep the first argument); files are
the sorted key set of both file lists; description and recommendation of
the other side are appended when non-empty, different and not already a
substring.  The Finding literal returned by the source omits CodeSnippets,
so the merged record carries the zero value (empty list). -/
def mergeFindings (a b : Finding) : Finding :=
  let base := if severityValue b.Severity < severityValue a.Severity then b else a
  let other := if severityValue b.Severity < severityValue a.Severity then a else b
  let mergedFiles := sortStrings ((base.Files ++ other.Files).dedup)
  let mergedDesc :=
    if other.Description ≠ "" ∧ other.Description ≠ base.Description then
      if strContains base.Description other.Description then base.Description
      else base.Description ++ " " ++ other.Description
    else base.Description
  let mergedRec :=
    if other.Recommendation ≠ "" ∧ other.Recommendation ≠ base.Recommendation then
      if strContains base.Recommendation other.Recommendation then base.Recommendation
      else base.Recommendation ++ " " ++ other.Recommendation
    else base.Recommendation
  { ID := base.ID
    Category := base.Category
    Title := base.Title
    Severity := base.Severity
    Description := mergedDesc
    Recommendation := mergedRec
    Files := mergedFiles
    CodeSnippets := [] }

/-- Inner loop of deduplicate (merge.go lines 44-55): scan the remaining
findings once; each one that shouldMerge with the accumulated base is
merged into it, the others are returned, in order, as leftovers for later
outer iterations (the merged-index map of the source). -/
def dedupScan : Finding → List Finding → Finding × List Finding
  | base, [] => (base, [])
  | base, x :: xs =>
    if shouldMerge base x then dedupScan (mergeFindings base x) xs
    else
      let p := dedupScan base xs
      (p.1, x :: p.2)

/-- The leftovers of dedupScan never outnumber its input. -/
theorem dedupScan_snd_length (base : Finding) (xs : List Finding) :
    (dedupScan base xs).2.length ≤ xs.length := by
  induction xs generalizing base with
  | nil => simp [dedupScan]
  | cons x xs ih =>
    by_cases h : shouldMerge base x = true
    · simpa [dedupScan, h] using Nat.le_succ_of_le (ih (mergeFindings base x))
    · simpa [dedupScan, h] using ih base

/-- Outer loop of deduplicate, written with a structural fuel argument so
that it evaluates by kernel reduction; the fuel is the input length, which
`dedupScan_snd_length` shows never runs out. -/
def dedupFuel : Nat → List Finding → List Finding
  | _, [] => []
  | 0, l => l
  | fuel + 1, x :: xs =>
    let p := dedupScan x xs
    p.1 :: dedupFuel fuel p.2

/-- deduplicate (merge.go lines 26-61): take the first unvisited finding
as base, merge every later similar finding into it, output the base, and
continue with the leftovers. -/
def deduplicate (l : List Finding) : List Finding :=
  dedupFuel l.length l

/-- The fuel argument is irrelevant as long as it covers the input length. -/
theorem dedupFuel_congr :
    ∀ (f1 f2 : Nat) (l : List Finding), l.length ≤ f1 → l.length ≤ f2 →
      dedupFuel f1 l = dedupFuel f2 l := by
  intro f1
  induction f1 with
  | zero =>
    intro f2 l h1 _
    have : l = [] := List.length_eq_zero.mp (Nat.le_zero.mp h1)
    subst this
    cases f2 <;> rfl
  | succ f1 ih =>
    intro f2 l h1 h2
    cases l with
    | nil => cases f2 <;> rfl
    | cons x xs =>
      cases f2 with
      | zero => exact absurd h2 (by simp)
      | succ g =>
        have hlen := dedupScan_snd_length x xs
        have hx1 : (dedupScan x xs).2.length ≤ f1 :=
          Nat.le_trans hlen (Nat.le_of_succ_le_succ h1)
        have hx2 : (dedupScan x xs).2.length ≤ g :=
          Nat.le_trans hlen (Nat.le_of_succ_le_succ h2)
        simpa [dedupFuel] using ih g (dedupScan x xs).2 hx1 hx2

/-- Unfolding equation of deduplicate on a non-empty list. -/
theorem deduplicate_cons (x : Finding) (xs : List Finding) :
    deduplicate (x :: xs) = (dedupScan x xs).1 :: deduplicate (dedupScan x xs).2 := by
  have hlen := dedupScan_snd_length x xs
  simp only [deduplicate, List.length_cons, dedupFuel]
  exact congrArg _ (dedupFuel_congr xs.length (dedupScan x xs).2.length _ hlen le_rfl)

/-- The severity ordinal used by BySeverity.Less (type file lines 46-58):
the Go map literal holds high 0, medium 1, low 2, and a lookup of any
other key returns the map zero value 0. -/
def bySeverityOrder (s : String) : Nat :=
  if s = SeverityHigh then 0
  else if s = SeverityMedium then 1
  else if s = SeverityLow then 2
  else 0

/-- BySeverity.Less as a non-strict comparison for the stable sort. -/
def sevLe (a b : Finding) : Prop :=
  bySeverityOrder a.Severity ≤ bySeverityOrder b.Severity

instance : DecidableRel sevLe := fun a b =>
  inferInstanceAs (Decidable (bySeverityOrder a.Severity ≤ bySeverityOrder b.Severity))

instance : IsTotal Finding sevLe :=
  ⟨fun a b => Nat.le_total (bySeverityOrder a.Severity) (bySeverityOrder b.Severity)⟩

instance : IsTrans Finding sevLe :=
  ⟨fun _ _ _ h1 h2 => Nat.le_trans h1 h2⟩

/-- sort.Sort(BySeverity(...)): stable ascending sort by the Less ordinal
(insertion sort, which is what sort.Sort runs on slices shorter than 12
elements). -/
def sortFindings (l : List Finding) : List Finding :=
  List.insertionSort sevLe l

/-- Merge (merge.go lines 9-23): concatenate the variadic finding arrays,
deduplicate, sort by severity. -/
def Merge (findingArrays : List (List Finding)) : List Finding :=
  sortFindings (deduplicate findingArrays.flatten)

/-! Shared lemmas about the embedded engine. -/

/-- deduplicate on the empty list. -/
theorem deduplicate_nil : deduplicate [] = [] := rfl

/-- Sorting with sortStrings is invariant under permutation of the input:
the output is the unique ascending enumeration of the input's elements. -/
theorem sortStrings_congr_perm {l1 l2 : List String} (h : l1.Perm l2) :
    sortStrings l1 = sortStrings l2 :=
  List.eq_of_perm_of_sorted
    ((List.perm_insertionSort strLeRel l1).trans
      (h.trans (List.perm_insertionSort strLeRel l2).symm))
    (List.sorted_insertionSort strLeRel l1)
    (List.sorted_insertionSort strLeRel l2)

/-- The merged file list is the sorted key set of the two file lists,
independently of which argument became the base. -/
theorem mergeFindings_Files (a b : Finding) :
    (mergeFindings a b).Files = sortStrings ((a.Files ++ b.Files).dedup) := by
  have hperm : ((b.Files ++ a.Files).dedup).Perm ((a.Files ++ b.Files).dedup) := by
    rw [List.perm_ext_iff_of_nodup (List.nodup_dedup _) (List.nodup_dedup _)]
    intro x
    simp [List.mem_dedup, or_comm]
  by_cases h : severityValue b.Severity < severityValue a.Severity
  · have : (mergeFindings a b).Files = sortStrings ((b.Files ++ a.Files).dedup) := by
      simp [mergeFindings, h]
    rw [this]
    exact sortStrings_congr_perm hperm
  · simp [mergeFindings, h]

/-- Membership in the merged file list is membership in either input. -/
theorem mergeFindings_files_mem {x : String} (a b : Finding) :
    x ∈ (mergeFindings a b).Files ↔ (x ∈ a.Files ∨ x ∈ b.Files) := by
  rw [mergeFindings_Files, sortStrings,
    (List.perm_insertionSort strLeRel ((a.Files ++ b.Files).dedup)).mem_iff]
  simp [List.mem_dedup]

/-! Merge resolver: which member's identity fields survive a cluster
consolidation (claim C2). -/

/-- The identity fields of a finding, as listed by the claim: id,
category, title and severity. -/
def sameIdFields (x y : Finding) : Prop :=
  x.ID = y.ID ∧ x.Category = y.Category ∧ x.Title = y.Title ∧ x.Severity = y.Severity

instance (x y : Finding) : Decidable (sameIdFields x y) :=
  inferInstanceAs (Decidable (_ ∧ _ ∧ _ ∧ _))

/-- The cluster member with the smallest severityValue, earliest first:
the fold keeps the current pick unless a strictly smaller ordinal
appears, which is exactly how mergeFindings selects its base across a
left-to-right consolidation. -/
def bestBySeverity (rep : Finding) (rest : List Finding) : Finding :=
  rest.foldl
    (fun b x => if severityValue x.Severity < severityValue b.Severity then x else b) rep

/-- mergeFindings keeps the identity fields of the argument with the
smaller severityValue; ties keep the first argument. -/
theorem mergeFindings_idFields (a b : Finding) :
    sameIdFields (mergeFindings a b)
      (if severityValue b.Severity < severityValue a.Severity then b else a) := by
  by_cases h : severityValue b.Severity < severityValue a.Severity <;>
    simp [mergeFindings, sameIdFields, h]

/-- sameIdFields is transitive. -/
theorem sameIdFields_trans {x y z : Finding}
    (h1 : sameIdFields x y) (h2 : sameIdFields y z) : sameIdFields x z :=
  ⟨h1.1.trans h2.1, h1.2.1.trans h2.2.1, h1.2.2.1.trans h2.2.2.1,
    h1.2.2.2.trans h2.2.2.2⟩

/-- Folding mergeFindings over a member list tracks the pure severity
selection fold on the identity fields. -/
theorem foldl_mergeFindings_idFields :
    ∀ (rest : List Finding) (rep rep2 : Finding), sameIdFields rep rep2 →
      sameIdFields (rest.foldl mergeFindings rep) (bestBySeverity rep2 rest) := by
  intro rest
  induction rest with
  | nil => intro rep rep2 h; simpa [bestBySeverity] using h
  | cons x xs ih =>
    intro rep rep2 h
    have hsev : rep.Severity = rep2.Severity := h.2.2.2
    show sameIdFields (xs.foldl mergeFindings (mergeFindings rep x)) _
    have hb : bestBySeverity rep2 (x :: xs)
        = bestBySeverity
          (if severityValue x.Severity < severityValue rep2.Severity then x else rep2) xs := by
      simp [bestBySeverity]
    rw [hb]
    apply ih
    have hm := mergeFindings_idFields rep x
    by_cases hc : severityValue x.Severity < severityValue rep.Severity
    · rw [if_pos hc] at hm
      rw [if_pos (hsev ▸ hc)]
      exact hm
    · rw [if_neg hc] at hm
      rw [if_neg (hsev ▸ hc)]
      exact sameIdFields_trans hm h

/-- The severity ordinal of a consolidated cluster is the minimum ordinal
of its members. -/
theorem foldl_mergeFindings_severity :
    ∀ (rest : List Finding) (rep : Finding),
      severityValue ((rest.foldl mergeFindings rep).Severity)
        = rest.foldl (fun m x => min m (severityValue x.Severity))
            (severityValue rep.Severity) := by
  intro rest
  induction rest with
  | nil => intro rep; rfl
  | cons x xs ih =>
    intro rep
    show severityValue ((xs.foldl mergeFindings (mergeFindings rep x)).Severity) = _
    rw [ih (mergeFindings rep x)]
    have hsev : severityValue ((mergeFindings rep x).Severity)
        = min (severityValue rep.Severity) (severityValue x.Severity) := by
      by_cases hc : severityValue x.Severity < severityValue rep.Severity
      · have hx : (mergeFindings rep x).Severity = x.Severity := by
          simp [mergeFindings, hc]
        rw [hx, Nat.min_def]
        split_ifs with h2 <;> omega
      · have hx : (mergeFindings rep x).Severity = rep.Severity := by
          simp [mergeFindings, hc]
        rw [hx, Nat.min_def]
        split_ifs with h2 <;> omega
    rw [hsev]
    rfl

/-- The severity pick is always one of the cluster members. -/
theorem bestBySeverity_mem :
    ∀ (rest : List Finding) (rep : Finding), bestBySeverity rep rest ∈ rep :: rest := by
  intro rest
  induction rest with
  | nil => intro rep; simp [bestBySeverity]
  | cons x xs ih =>
    intro rep
    have hb : bestBySeverity rep (x :: xs)
        = bestBySeverity
          (if severityValue x.Severity < severityValue rep.Severity then x else rep) xs := by
      simp [bestBySeverity]
    rw [hb]
    rcases List.mem_cons.mp
        (ih (if severityValue x.Severity < severityValue rep.Severity then x else rep)) with
      h | h
    · rw [h]
      by_cases hc : severityValue x.Severity < severityValue rep.Severity
      · simp [hc]
      · simp [hc]
    · exact List.mem_cons_of_mem _ (List.mem_cons_of_mem x h)

/-- C2: consolidating a cluster (the left fold of mergeFindings over the
members, representative first) yields a finding whose id, category, title
and severity are those of the member with the smallest severity ordinal,
earliest member first on ties (`bestBySeverity`, which is itself a
member); the merged severity ordinal is the minimum ordinal over the
members; and a cluster of size one is returned unchanged. -/
theorem merge_resolver_severity_selection (rep : Finding) (rest : List Finding) :
    List.foldl mergeFindings rep [] = rep
    ∧ sameIdFields (rest.foldl mergeFindings rep) (bestBySeverity rep rest)
    ∧ severityValue ((rest.foldl mergeFindings rep).Severity)
        = (rest.map (fun f => severityValue f.Severity)).foldl min
            (severityValue rep.Severity)
    ∧ bestBySeverity rep rest ∈ rep :: rest := by
  refine ⟨rfl, ?_, ?_, bestBySeverity_mem rest rep⟩
  · exact foldl_mergeFindings_idFields rest rep rep
      ⟨rfl, rfl, rfl, rfl⟩
  · rw [foldl_mergeFindings_severity rest rep, List.foldl_map]

/-! Similarity facts used by claims C1 and C5. -/

/-- tokenSimilarity of a string with itself is always 1. -/
theorem tokenSimilarity_self (s : String) : tokenSimilarity s s = 1 := by
  by_cases hs : s = ""
  · simp [tokenSimilarity, hs]
  · by_cases ht : tokenize (lowerChars s) = []
    · simp [tokenSimilarity, hs, ht]
    · have hcount : (normalizeTokens (tokenize (lowerChars s))).countP
          (fun t => (normalizeTokens (tokenize (lowerChars s))).contains t)
          = (normalizeTokens (tokenize (lowerChars s))).length := by
        rw [List.countP_eq_length]
        intro t htm
        exact List.elem_eq_true_of_mem htm
      have hlen : (normalizeTokens (tokenize (lowerChars s))).length ≠ 0 := by
        simp only [normalizeTokens, List.length_map, ne_eq, List.length_eq_zero]
        exact ht
      simp only [tokenSimilarity, hs, and_self, or_self, if_neg, ite_false,
        if_neg ht, hcount]
      have hunion : (normalizeTokens (tokenize (lowerChars s))).length
          + (normalizeTokens (tokenize (lowerChars s))).length
          - (normalizeTokens (tokenize (lowerChars s))).length
          = (normalizeTokens (tokenize (lowerChars s))).length := by omega
      rw [hunion, if_neg hlen]
      exact div_self (Nat.cast_ne_zero.mpr hlen)

/-- calculateFileOverlap is never negative. -/
theorem calculateFileOverlap_nonneg (files1 files2 : List String) :
    0 ≤ calculateFileOverlap files1 files2 := by
  unfold calculateFileOverlap
  split_ifs
  · norm_num
  · norm_num
  · exact div_nonneg (Nat.cast_nonneg _) (Nat.cast_nonneg _)

/-- A pair of findings sharing title, description and recommendation and
lying in the same category always clears the 0.38 merge threshold: the
worst case is empty description and recommendation with two disjoint
non-empty file lists, where the score is (0.35)/(0.60). -/
theorem calculateSimilarity_shared_fields
    (a b : Finding) (htitle : a.Title = b.Title) (hdesc : a.Description = b.Description)
    (hrec : a.Recommendation = b.Recommendation) :
    (38 : ℚ) / 100 ≤ calculateSimilarity a b := by
  have htsim : tokenSimilarity a.Title b.Title = 1 := by
    rw [htitle]; exact tokenSimilarity_self b.Title
  have hdsim : tokenSimilarity a.Description b.Description = 1 := by
    rw [hdesc]; exact tokenSimilarity_self b.Description
  have hrsim : tokenSimilarity a.Recommendation b.Recommendation = 1 := by
    rw [hrec]; exact tokenSimilarity_self b.Recommendation
  have hover := calculateFileOverlap_nonneg a.Files b.Files
  unfold calculateSimilarity
  rw [htsim, hdsim, hrsim]
  dsimp only
  split_ifs <;>
    first
      | (rw [le_div_iff₀ (by norm_num)]; linarith)
      | linarith

/-- C1 (amended): two findings with identical titles, identical
categories, equal descriptions and equal recommendations always merge
(the claim as frozen fails when description, recommendation and files all
pull the weighted score below 0.38, see the counterexample); the merged
finding's files field is the sorted set union of the two file lists. -/
theorem merge_identical_titles_amended
    (id1 id2 cat t d r sev1 sev2 : String) (fs1 fs2 : List String)
    (cs1 cs2 : List CodeSnippet) :
    Merge [[⟨id1, cat, t, sev1, d, r, fs1, cs1⟩, ⟨id2, cat, t, sev2, d, r, fs2, cs2⟩]]
        = [mergeFindings ⟨id1, cat, t, sev1, d, r, fs1, cs1⟩
            ⟨id2, cat, t, sev2, d, r, fs2, cs2⟩]
    ∧ (mergeFindings ⟨id1, cat, t, sev1, d, r, fs1, cs1⟩
        ⟨id2, cat, t, sev2, d, r, fs2, cs2⟩).Files
        = sortStrings ((fs1 ++ fs2).dedup) := by
  set F1 : Finding := ⟨id1, cat, t, sev1, d, r, fs1, cs1⟩ with hF1
  set F2 : Finding := ⟨id2, cat, t, sev2, d, r, fs2, cs2⟩ with hF2
  have hsm : shouldMerge F1 F2 = true := by
    have hscore := calculateSimilarity_shared_fields F1 F2 rfl rfl rfl
    simp [shouldMerge, hscore]
  constructor
  · show sortFindings (deduplicate [F1, F2]) = _
    rw [deduplicate_cons]
    have hscan : dedupScan F1 [F2] = (mergeFindings F1 F2, []) := by
      simp [dedupScan, hsm]
    rw [hscan]
    simp [deduplicate_nil, sortFindings, List.insertionSort]
  · exact mergeFindings_Files F1 F2

/-- C3 (amended): on a three-finding list the grouping engine decides the
third finding's cluster membership against the accumulated merged record
(mergeFindings a b), not against the representative's original form, and
the category gate is checked before the similarity score (shouldMerge is
exactly the conjunction of the category test and the threshold test). -/
theorem grouping_compares_accumulated_record (a b c : Finding) :
    deduplicate [a, b, c] =
      (if shouldMerge a b then
        if shouldMerge (mergeFindings a b) c then
          [mergeFindings (mergeFindings a b) c]
        else [mergeFindings a b, c]
      else if shouldMerge a c then [mergeFindings a c, b]
      else if shouldMerge b c then [a, mergeFindings b c]
      else [a, b, c])
    ∧ shouldMerge a b
        = (decide (a.Category = b.Category)
            && decide ((38 : ℚ) / 100 ≤ calculateSimilarity a b)) := by
  constructor
  · by_cases h1 : shouldMerge a b = true
    · by_cases h2 : shouldMerge (mergeFindings a b) c = true
      · rw [deduplicate_cons]
        have hscan : dedupScan a [b, c] = (mergeFindings (mergeFindings a b) c, []) := by
          simp [dedupScan, h1, h2]
        rw [hscan]
        simp [deduplicate_nil, h1, h2]
      · rw [deduplicate_cons]
        have hscan : dedupScan a [b, c] = (mergeFindings a b, [c]) := by
          simp [dedupScan, h1, h2]
        rw [hscan, deduplicate_cons]
        simp [dedupScan, deduplicate_nil, h1, h2]
    · by_cases h3 : shouldMerge a c = true
      · rw [deduplicate_cons]
        have hscan : dedupScan a [b, c] = (mergeFindings a c, [b]) := by
          simp [dedupScan, h1, h3]
        rw [hscan, deduplicate_cons]
        simp [dedupScan, deduplicate_nil, h1, h3]
      · by_cases h4 : shouldMerge b c = true
        · rw [deduplicate_cons]
          have hscan : dedupScan a [b, c] = (a, [b, c]) := by
            simp [dedupScan, h1, h3]
          rw [hscan, deduplicate_cons]
          have hscan2 : dedupScan b [c] = (mergeFindings b c, []) := by
            simp [dedupScan, h4]
          rw [hscan2]
          simp [deduplicate_nil, h1, h3, h4]
        · rw [deduplicate_cons]
          have hscan : dedupScan a [b, c] = (a, [b, c]) := by
            simp [dedupScan, h1, h3]
          rw [hscan, deduplicate_cons]
          have hscan2 : dedupScan b [c] = (b, [c]) := by
            simp [dedupScan, h4]
          rw [hscan2, deduplicate_cons]
          simp [dedupScan, deduplicate_nil, h1, h3, h4]
  · by_cases hc : a.Category = b.Category <;> simp [shouldMerge, hc]

/-! Idempotence analysis (claim C6). -/

/-- When nothing in the scanned remainder merges with the base, dedupScan
is the identity. -/
theorem dedupScan_no_merge :
    ∀ (xs : List Finding) (base : Finding),
      (∀ y ∈ xs, shouldMerge base y = false) → dedupScan base xs = (base, xs) := by
  intro xs
  induction xs with
  | nil => intro base _; rfl
  | cons y ys ih =>
    intro base h
    have hy := h y (List.mem_cons_self y ys)
    have hrest := ih base (fun z hz => h z (List.mem_cons_of_mem y hz))
    simp [dedupScan, hy, hrest]

/-- deduplicate is the identity on pairwise non-mergeable lists. -/
theorem deduplicate_pairwise_eq :
    ∀ l : List Finding,
      List.Pairwise (fun a b => shouldMerge a b = false) l → deduplicate l = l := by
  intro l
  induction l with
  | nil => intro _; rfl
  | cons x xs ih =>
    intro h
    rw [deduplicate_cons, dedupScan_no_merge xs x (List.pairwise_cons.mp h).1]
    simpa using ih (List.pairwise_cons.mp h).2

/-- C6 (amended): Merge is a no-op on a list whose members are pairwise
non-mergeable and already severity-sorted — in particular on any of its
own outputs in which no two findings clear the merge predicate.  The
frozen claim of unconditional idempotence fails: merging enlarges file
lists, so a second pass can merge two outputs that the first pass
compared before their clusters accumulated the shared files (see the
counterexample). -/
theorem merge_idempotent_on_settled_output (l : List Finding)
    (hpair : List.Pairwise (fun a b => shouldMerge a b = false) l)
    (hsort : List.Sorted sevLe l) :
    Merge [l] = l := by
  show sortFindings (deduplicate ([l].flatten)) = l
  have hfl : ([l] : List (List Finding)).flatten = l := by simp
  rw [hfl, deduplicate_pairwise_eq l hpair]
  exact List.Sorted.insertionSort_eq hsort

/-! Fail-open behaviour (claim C9). -/

/-- The accumulated base of the scan only ever gains files. -/
theorem dedupScan_base_files :
    ∀ (xs : List Finding) (base : Finding) (x : String),
      x ∈ base.Files → x ∈ (dedupScan base xs).1.Files := by
  intro xs
  induction xs with
  | nil => intro base x hx; exact hx
  | cons y ys ih =>
    intro base x hx
    by_cases h : shouldMerge base y = true
    · have hm : x ∈ (mergeFindings base y).Files :=
        (mergeFindings_files_mem base y).mpr (Or.inl hx)
      simpa [dedupScan, h] using ih (mergeFindings base y) x hm
    · simpa [dedupScan, h] using ih base x hx

/-- Every scanned finding either survives in the leftovers or has all its
files absorbed into the accumulated base. -/
theorem dedupScan_covers :
    ∀ (xs : List Finding) (base f : Finding), f ∈ xs →
      f ∈ (dedupScan base xs).2
      ∨ (∀ x ∈ f.Files, x ∈ (dedupScan base xs).1.Files) := by
  intro xs
  induction xs with
  | nil => intro base f hf; cases hf
  | cons y ys ih =>
    intro base f hf
    by_cases h : shouldMerge base y = true
    · rcases List.mem_cons.mp hf with hfe | hfr
      · right
        intro x hx
        have hm : x ∈ (mergeFindings base y).Files :=
          (mergeFindings_files_mem base y).mpr (Or.inr (hfe ▸ hx))
        simpa [dedupScan, h] using dedupScan_base_files ys (mergeFindings base y) x hm
      · have := ih (mergeFindings base y) f hfr
        simpa [dedupScan, h] using this
    · rcases List.mem_cons.mp hf with hfe | hfr
      · left
        simp [dedupScan, h, hfe]
      · rcases ih base f hfr with h1 | h1
        · left; simp [dedupScan, h, h1]
        · right
          intro x hx
          simpa [dedupScan, h] using h1 x hx

/-- Every input finding is covered by some output of deduplicate: its
files all appear in that output's files (for an unmerged finding the
output is the finding itself). -/
theorem deduplicate_covers :
    ∀ (n : Nat) (l : List Finding), l.length ≤ n → ∀ f ∈ l,
      ∃ g ∈ deduplicate l, ∀ x ∈ f.Files, x ∈ g.Files := by
  intro n
  induction n with
  | zero =>
    intro l hl f hf
    have : l = [] := List.length_eq_zero.mp (Nat.le_zero.mp hl)
    subst this
    cases hf
  | succ n ih =>
    intro l hl f hf
    cases l with
    | nil => cases hf
    | cons x xs =>
      rw [deduplicate_cons]
      rcases List.mem_cons.mp hf with hfe | hfr
      · refine ⟨(dedupScan x xs).1, List.mem_cons_self _ _, ?_⟩
        intro y hy
        exact dedupScan_base_files xs x y (hfe ▸ hy)
      · rcases dedupScan_covers xs x f hfr with h1 | h1
        · have hlen : (dedupScan x xs).2.length ≤ n :=
            Nat.le_trans (dedupScan_snd_length x xs) (Nat.le_of_succ_le_succ hl)
          rcases ih (dedupScan x xs).2 hlen f h1 with ⟨g, hg, hgf⟩
          exact ⟨g, List.mem_cons_of_mem _ hg, hgf⟩
        · exact ⟨(dedupScan x xs).1, List.mem_cons_self _ _, h1⟩

/-- C9: the engine has no failure path.  Empty input yields empty output
(also through Merge's variadic concatenation); severityValue sends every
string outside the severity enumeration to the lowest-priority bucket 3
used during merge resolution; and every input finding — whatever its
severity or category strings are — is retained in the output: some output
finding carries all of its files. -/
theorem merge_fail_open_total :
    (Merge [] = [] ∧ Merge [[]] = [] ∧ deduplicate [] = [])
    ∧ (∀ s : String,
        s ≠ SeverityHigh → s ≠ SeverityMedium → s ≠ SeverityLow → severityValue s = 3)
    ∧ (∀ (arrays : List (List Finding)), ∀ f ∈ arrays.flatten,
        ∃ g ∈ Merge arrays, ∀ x ∈ f.Files, x ∈ g.Files) := by
  refine ⟨⟨rfl, rfl, rfl⟩, ?_, ?_⟩
  · intro s h1 h2 h3
    simp [severityValue, h1, h2, h3]
  · intro arrays f hf
    rcases deduplicate_covers arrays.flatten.length arrays.flatten le_rfl f hf with
      ⟨g, hg, hgf⟩
    refine ⟨g, ?_, hgf⟩
    show g ∈ sortFindings (deduplicate arrays.flatten)
    exact ((List.perm_insertionSort sevLe (deduplicate arrays.flatten)).mem_iff).mpr hg

/-- C10: the merged file list is independent of Go map iteration order
and therefore deterministic.  Whatever order the file-set map yields its
keys in (any permutation of the key set), sorting gives the same list,
which is exactly the Files field mergeFindings produces, and that field
is sorted; hence equal inputs give equal outputs, with no channel for
map iteration order to leak into the result. -/
theorem merged_files_iteration_order_independent
    (a b : Finding) (it1 it2 : List String)
    (h1 : it1.Perm ((a.Files ++ b.Files).dedup))
    (h2 : it2.Perm ((a.Files ++ b.Files).dedup)) :
    sortStrings it1 = sortStrings it2
    ∧ sortStrings it1 = (mergeFindings a b).Files
    ∧ List.Sorted strLeRel ((mergeFindings a b).Files) := by
  refine ⟨sortStrings_congr_perm (h1.trans h2.symm), ?_, ?_⟩
  · rw [mergeFindings_Files]
    exact sortStrings_congr_perm h1
  · rw [mergeFindings_Files]
    exact List.sorted_insertionSort strLeRel _

/-! Code snippet consolidation (claim C8).  The snippet branch of the
merge resolver is not part of the sources under src/: merge.go's
mergeFindings drops the CodeSnippets field, while the package's tests
(merge_test.go: TestMergeWithCodeSnippets, TestMergeDeduplicatesCodeSnippets,
TestSnippetKey) exercise a snippetKey function and snippet-merging
behaviour whose definitions are missing.  The definitions below are
therefore modelled from the spec. -/

/-- Modelled from the spec: the missing snippetKey function builds a
snippet's deduplication key from the (file, start_line, end_line)
coordinates; the repository's TestSnippetKey pins the "file:start-end"
format. -/
def snippetKey (s : CodeSnippet) : String :=
  s.File ++ ":" ++ toString s.StartLine ++ "-" ++ toString s.EndLine

/-- Modelled from the spec: keep each snippet whose key has not been seen
yet, first occurrence wins (the map-guarded append of the missing merge
code). -/
def dedupSnippets : List String → List CodeSnippet → List CodeSnippet
  | _, [] => []
  | seen, s :: rest =>
    if snippetKey s ∈ seen then dedupSnippets seen rest
    else s :: dedupSnippets (snippetKey s :: seen) rest

/-- Modelled from the spec: a consolidated cluster's code_snippets is the
union of the members' snippet lists deduplicated by snippet key. -/
def mergedSnippets (cluster : List Finding) : List CodeSnippet :=
  dedupSnippets [] (cluster.map (fun f => f.CodeSnippets)).flatten

/-- dedupSnippets output: keys are distinct and avoid the seen set. -/
theorem dedupSnippets_keys_nodup :
    ∀ (l : List CodeSnippet) (seen : List String),
      ((dedupSnippets seen l).map snippetKey).Nodup
      ∧ ∀ s ∈ dedupSnippets seen l, snippetKey s ∉ seen := by
  intro l
  induction l with
  | nil => intro seen; exact ⟨List.nodup_nil, by intro s hs; cases hs⟩
  | cons s rest ih =>
    intro seen
    by_cases h : snippetKey s ∈ seen
    · simpa [dedupSnippets, h] using ih seen
    · have ihs := ih (snippetKey s :: seen)
      constructor
      · simp only [dedupSnippets, if_neg h, List.map_cons, List.nodup_cons]
        constructor
        · intro hmem
          rcases List.mem_map.mp hmem with ⟨t, ht, hkey⟩
          exact (ihs.2 t ht) (hkey ▸ List.mem_cons_self _ _)
        · exact ihs.1
      · intro t ht
        simp only [dedupSnippets, if_neg h] at ht
        rcases List.mem_cons.mp ht with rfl | htr
        · exact h
        · exact fun hc => (ihs.2 t htr) (List.mem_cons_of_mem _ hc)

/-- dedupSnippets only returns snippets of its input. -/
theorem dedupSnippets_subset :
    ∀ (l : List CodeSnippet) (seen : List String) (s : CodeSnippet),
      s ∈ dedupSnippets seen l → s ∈ l := by
  intro l
  induction l with
  | nil => intro seen s hs; cases hs
  | cons t rest ih =>
    intro seen s hs
    by_cases h : snippetKey t ∈ seen
    · simp only [dedupSnippets, if_pos h] at hs
      exact List.mem_cons_of_mem t (ih seen s hs)
    · simp only [dedupSnippets, if_neg h] at hs
      rcases List.mem_cons.mp hs with rfl | hsr
      · exact List.mem_cons_self s rest
      · exact List.mem_cons_of_mem t (ih (snippetKey t :: seen) s hsr)

/-- dedupSnippets preserves exactly the keys of the input that are not in
the seen set. -/
theorem dedupSnippets_keys :
    ∀ (l : List CodeSnippet) (seen : List String) (k : String),
      (∃ s ∈ dedupSnippets seen l, snippetKey s = k)
        ↔ (k ∉ seen ∧ ∃ s ∈ l, snippetKey s = k) := by
  intro l
  induction l with
  | nil => intro seen k; simp [dedupSnippets]
  | cons s rest ih =>
    intro seen k
    by_cases h : snippetKey s ∈ seen
    · rw [show dedupSnippets seen (s :: rest) = dedupSnippets seen rest from by
        simp [dedupSnippets, h]]
      rw [ih seen k]
      constructor
      · rintro ⟨hk, t, ht, rfl⟩
        exact ⟨hk, t, List.mem_cons_of_mem s ht, rfl⟩
      · rintro ⟨hk, t, ht, rfl⟩
        rcases List.mem_cons.mp ht with rfl | htr
        · exact absurd h hk
        · exact ⟨hk, t, htr, rfl⟩
    · rw [show dedupSnippets seen (s :: rest)
          = s :: dedupSnippets (snippetKey s :: seen) rest from by
        simp [dedupSnippets, h]]
      constructor
      · rintro ⟨t, ht, rfl⟩
        rcases List.mem_cons.mp ht with rfl | htr
        · exact ⟨h, t, List.mem_cons_self t rest, rfl⟩
        · rcases (ih (snippetKey s :: seen) (snippetKey t)).mp ⟨t, htr, rfl⟩ with
            ⟨hk, u, hu, hku⟩
          exact ⟨fun hc => hk (List.mem_cons_of_mem _ hc), u,
            List.mem_cons_of_mem s hu, hku⟩
      · rintro ⟨hk, t, ht, rfl⟩
        rcases List.mem_cons.mp ht with rfl | htr
        · exact ⟨t, List.mem_cons_self t _, rfl⟩
        · by_cases hks : snippetKey t = snippetKey s
          · exact ⟨s, List.mem_cons_self s _, hks.symm⟩
          · rcases (ih (snippetKey s :: seen) (snippetKey t)).mpr
              ⟨by simp [hks, hk], t, htr, rfl⟩ with ⟨u, hu, hku⟩
            exact ⟨u, List.mem_cons_of_mem s hu, hku⟩

/-- C8 (spec-modelled): the consolidated cluster's code_snippets is the
union of the members' snippets deduplicated by the
(file, start_line, end_line) key: its key list has no duplicates (so two
entries with identical coordinates collapse to one entry even when their
captured code differs), every member snippet's key is represented, and
every output snippet is one of the members' snippets. -/
theorem merged_snippets_dedup_by_key (cluster : List Finding) :
    ((mergedSnippets cluster).map snippetKey).Nodup
    ∧ (∀ k : String,
        (∃ s ∈ mergedSnippets cluster, snippetKey s = k)
          ↔ (∃ f ∈ cluster, ∃ s ∈ f.CodeSnippets, snippetKey s = k))
    ∧ (∀ s ∈ mergedSnippets cluster, ∃ f ∈ cluster, s ∈ f.CodeSnippets) := by
  refine ⟨(dedupSnippets_keys_nodup _ []).1, ?_, ?_⟩
  · intro k
    rw [mergedSnippets, dedupSnippets_keys]
    constructor
    · rintro ⟨-, s, hs, rfl⟩
      rcases List.mem_flatten.mp hs with ⟨ls, hls, hsl⟩
      rcases List.mem_map.mp hls with ⟨f, hf, rfl⟩
      exact ⟨f, hf, s, hsl, rfl⟩
    · rintro ⟨f, hf, s, hs, rfl⟩
      refine ⟨List.not_mem_nil _, s, ?_, rfl⟩
      exact List.mem_flatten.mpr ⟨f.CodeSnippets, List.mem_map.mpr ⟨f, hf, rfl⟩, hs⟩
  · intro s hs
    have := dedupSnippets_subset _ [] s hs
    rcases List.mem_flatten.mp this with ⟨ls, hls, hsl⟩
    rcases List.mem_map.mp hls with ⟨f, hf, rfl⟩
    exact ⟨f, hf, hsl⟩

/-! Concrete findings used by the counterexamples and witnesses. -/

/-- Counterexample input for C1: identical title and category, but
dissimilar non-empty descriptions and recommendations and disjoint
non-empty file lists. -/
def c1a : Finding :=
  ⟨"i1", "security", "alpha beta gamma delta", "low", "red green", "cold warm",
    ["a.txt"], []⟩

/-- Second C1 counterexample finding. -/
def c1b : Finding :=
  ⟨"i2", "security", "alpha beta gamma delta", "low", "blue yellow", "hot cool",
    ["b.txt"], []⟩

/-- C3 representative: empty description, recommendation and files, so a
similarity check against it reduces to the title signal. -/
def c3rep : Finding :=
  ⟨"r", "security", "alpha beta gamma delta", "low", "", "", [], []⟩

/-- C3 second finding: same title, with description, recommendation and a
file that the accumulated record inherits. -/
def c3mid : Finding :=
  ⟨"f2", "security", "alpha beta gamma delta", "low", "red green", "cold warm",
    ["p.txt"], []⟩

/-- C3 third finding: same title as the representative, but dissimilar to
the accumulated record on every other signal. -/
def c3tail : Finding :=
  ⟨"f3", "security", "alpha beta gamma delta", "low", "blue yellow", "hot cool",
    ["q.txt"], []⟩

/-- C4 failing input: the security member of the repository test
TestMergeDifferentCategoriesIfVerySimilar. -/
def c4sec : Finding :=
  ⟨"", "security", "MSK cluster uses public subnets instead of private subnets",
    "high",
    "The MSK cluster is configured with public subnets which poses a security risk",
    "", ["kafka.tf"], []⟩

/-- C4 failing input: the infra member of the same repository test. -/
def c4infra : Finding :=
  ⟨"", "infra", "MSK uses public subnets instead of private subnets", "medium",
    "MSK cluster should use private subnets for better isolation", "",
    ["kafka.tf"], []⟩

/-- C5 input: the spec's "Security issue A". -/
def c5a : Finding := ⟨"a1", "security", "Security issue A", "low", "", "", [], []⟩

/-- C5 input: the spec's "Security issue B". -/
def c5b : Finding := ⟨"a2", "security", "Security issue B", "low", "", "", [], []⟩

/-- C6 counterexample, first finding: one file p. -/
def c6a : Finding :=
  ⟨"x0", "security", "alpha beta gamma", "high", "", "", ["p"], []⟩

/-- C6 counterexample, second finding: unrelated title, files p q r s. -/
def c6b : Finding :=
  ⟨"x1", "security", "delta epsilon zeta", "high", "", "", ["p", "q", "r", "s"], []⟩

/-- C6 counterexample, third finding: same title as the first, files
q r s, which the first pass merges into the first cluster, giving its
output full file overlap with the second finding. -/
def c6c : Finding :=
  ⟨"x2", "security", "alpha beta gamma", "high", "", "", ["q", "r", "s"], []⟩

/-- C6 witness input: non-mergeable pair (different categories), already
severity-sorted. -/
def c6w1 : Finding :=
  ⟨"w1", "security", "alpha beta gamma delta", "high", "", "", [], []⟩

/-- Second C6 witness finding. -/
def c6w2 : Finding :=
  ⟨"w2", "pipeline", "omega psi chi", "low", "", "", [], []⟩

/-- C7 failing input: a well-formed low-severity finding. -/
def c7low : Finding := ⟨"l", "security", "alpha beta", "low", "", "", [], []⟩

/-- C7 failing input: a finding with the malformed severity "bogus". -/
def c7bogus : Finding := ⟨"b", "pipeline", "gamma delta", "bogus", "", "", [], []⟩

/-- C10 witness finding with files b, a. -/
def c10a : Finding := ⟨"ga", "security", "alpha beta", "high", "", "", ["b", "a"], []⟩

/-- C10 witness finding with files a, c. -/
def c10b : Finding := ⟨"gb", "security", "alpha beta", "low", "", "", ["a", "c"], []⟩

/-- C1 counterexample: two findings with identical titles and identical
categories that Merge does NOT merge — the output has both findings —
because the dissimilar descriptions, recommendations and disjoint files
hold the weighted score at 0.35, below the 0.38 threshold. -/
theorem merge_identical_titles_counterexample :
    Merge [[c1a, c1b]] = [c1a, c1b] ∧ calculateSimilarity c1a c1b = 35 / 100 := by
  constructor
  · decide
  · decide

/-- C3 counterexample: the third finding scores 1.0 against the cluster's
representative in its original form (shouldMerge is true), yet it is not
merged into the cluster: the engine scored it against the accumulated
merged record instead, whose inherited description, recommendation and
file pull the score to 0.35. -/
theorem grouping_representative_counterexample :
    shouldMerge c3rep c3tail = true
    ∧ deduplicate [c3rep, c3mid, c3tail] = [mergeFindings c3rep c3mid, c3tail]
    ∧ (deduplicate [c3rep, c3mid, c3tail]).length = 2 := by
  refine ⟨by decide, by decide, by decide⟩

/-- C4 (code bug): the two cross-category findings of the repository's
own test TestMergeDifferentCategoriesIfVerySimilar, expected by the test
(and the spec) to merge because their similarity is very high, are left
unmerged: shouldMerge returns false for every cross-category pair, and no
stricter cross-category threshold exists in the code. -/
theorem cross_category_never_merges_bug :
    deduplicate [c4sec, c4infra] = [c4sec, c4infra]
    ∧ shouldMerge c4sec c4infra = false
    ∧ (∀ a b : Finding, a.Category ≠ b.Category → shouldMerge a b = false) := by
  refine ⟨by decide, by decide, ?_⟩
  intro a b h
  simp [shouldMerge, h]

/-- C5 counterexample: "Security issue A" and "Security issue B" (both
category security, nothing else set) are merged into ONE output finding,
not kept separate: their single-character suffixes are dropped by the
tokenizer, the remaining token lists are identical, and no
minimum-significant-token guard exists in this variant of the code. -/
theorem generic_titles_counterexample :
    (Merge [[c5a, c5b]]).length = 1 := by
  decide

/-- C5 (amended): the two generic titles tokenize identically ("a" and
"b" are single-character tokens and are discarded), the similarity score
is exactly 1, and Merge collapses the pair to the single consolidated
finding. -/
theorem generic_titles_merge_amended :
    Merge [[c5a, c5b]] = [mergeFindings c5a c5b]
    ∧ calculateSimilarity c5a c5b = 1 := by
  refine ⟨by decide, by decide⟩

/-- C6 counterexample: Merge is not idempotent.  The first pass merges
the third finding into the first (identical titles), giving that cluster
files p q r s; the second finding was compared before that and kept.  A
second Merge run then merges the two outputs through their now-complete
file overlap, so Merge (Merge input) differs from Merge input. -/
theorem merge_not_idempotent_counterexample :
    Merge [Merge [[c6a, c6b, c6c]]] ≠ Merge [[c6a, c6b, c6c]]
    ∧ (Merge [[c6a, c6b, c6c]]).length = 2
    ∧ (Merge [Merge [[c6a, c6b, c6c]]]).length = 1 := by
  refine ⟨by decide, by decide, by decide⟩

/-- Witness for the amended C6 theorem at a concrete settled output. -/
theorem merge_idempotent_witness :
    Merge [[c6w1, c6w2]] = [c6w1, c6w2] :=
  merge_idempotent_on_settled_output [c6w1, c6w2] (by decide) (by decide)

/-- C7 (code bug): BySeverity.Less reads the ordinal map with Go map
zero-value semantics, so the malformed severity "bogus" gets ordinal 0
and sorts FIRST, alongside high, not last with ordinal 3 as the claim
(and severityValue, the ordinal used by merge resolution in the same
package) requires. -/
theorem unknown_severity_sorts_first_bug :
    Merge [[c7low, c7bogus]] = [c7bogus, c7low]
    ∧ severityValue "bogus" = 3
    ∧ bySeverityOrder "bogus" = 0 := by
  refine ⟨by decide, by decide, by decide⟩

/-- Witness for the C10 theorem: two different iteration orders of the
same merged file-key set sort to the same list, which is the merged
finding's sorted Files field. -/
theorem merged_files_iteration_order_witness :
    sortStrings ["b", "a", "c"] = sortStrings ["c", "a", "b"]
    ∧ sortStrings ["b", "a", "c"] = (mergeFindings c10a c10b).Files
    ∧ List.Sorted strLeRel ((mergeFindings c10a c10b).Files) :=
  merged_files_iteration_order_independent c10a c10b ["b", "a", "c"] ["c", "a", "b"]
    (by decide) (by decide)
